import Mathlib

/-!
# Verification of the MOZART voice-relay core (novaliteBack)

Shallow embedding of the core logic of `src/unnamed/part_000` (the barge-in
variant of `index.js`): the Polly TTS playback-session registry, the PCM
resampler, the audio frame buffer / async generator, the transcript dispatch
loop, and the WebSocket session-identifier assignment.

JS `Map` values are modelled as association lists with the JS `Map` update
semantics (set replaces any entry for the key); `AbortController` instances
are modelled by fresh natural-number identifiers allocated from a counter,
with an `aborted` set recording which controllers have had `abort()` called.
JS numbers in the resampler are modelled as exact rationals (`ℚ`); the
source formula and the spec's reference formula coincide symbol for symbol,
so the rational idealisation represents both.
-/

namespace Novalite

/-! ## Playback session manager (barge-in), part_000 lines 254-267 -/

/-- State of the module-level `ttsSessions` map plus the ambient facts about
the `AbortController` objects it has handed out: which controller ids have
been aborted, and the next fresh id. -/
structure TtsState where
  registry : List (String × Nat)
  aborted : List Nat
  nextId : Nat
  deriving Repr, DecidableEq

/-- `ttsSessions.set(clientId, { controller })`: JS `Map.set` replaces any
existing entry for the key. -/
def mapSet (k : String) (v : Nat) (m : List (String × Nat)) : List (String × Nat) :=
  (k, v) :: m.filter (fun p => p.1 != k)

/-- `ttsSessions.delete(clientId)`. -/
def mapDelete (k : String) (m : List (String × Nat)) : List (String × Nat) :=
  m.filter (fun p => p.1 != k)

/-- `beginTtsSession(clientId)` (part_000 lines 256-262): abort the previous
controller for the key if any, allocate a fresh `AbortController`, install it,
and return it. -/
def beginTtsSession (clientId : String) (s : TtsState) : Nat × TtsState :=
  let abortedNow :=
    match s.registry.lookup clientId with
    | some prev => prev :: s.aborted
    | none => s.aborted
  let controller := s.nextId
  (controller,
    { registry := mapSet clientId controller s.registry
      aborted := abortedNow
      nextId := s.nextId + 1 })

/-- `endTtsSession(clientId, controller)` (part_000 lines 264-267): delete the
entry only when the currently installed controller is the very one passed in. -/
def endTtsSession (clientId : String) (controller : Nat) (s : TtsState) : TtsState :=
  if s.registry.lookup clientId = some controller then
    { s with registry := mapDelete clientId s.registry }
  else
    s

/-- The empty registry at process start: `const ttsSessions = new Map()`. -/
def initTtsState : TtsState := ⟨[], [], 0⟩

/-- Run `n` sequential `beginTtsSession(clientId)` calls, collecting the
returned controllers in call order. -/
def beginN : Nat → String → TtsState → List Nat × TtsState
  | 0, _, s => ([], s)
  | n + 1, k, s =>
    let p := beginTtsSession k s
    let q := beginN n k p.2
    (p.1 :: q.1, q.2)

/-! ## Audio constants, part_000 lines 108-115 -/

/-- `const DST_RATE = 16000`. -/
def DST_RATE : Nat := 16000

/-- `const BYTES_PER_SAMPLE = 2`. -/
def BYTES_PER_SAMPLE : Nat := 2

/-- `const FRAME_MS = Number(process.env.TR_FRAME_MS || 20)`, default 20. -/
def FRAME_MS : Nat := 20

/-- `const FRAME_BYTES = (DST_RATE * BYTES_PER_SAMPLE * FRAME_MS) / 1000` = 640. -/
def FRAME_BYTES : Nat := DST_RATE * BYTES_PER_SAMPLE * FRAME_MS / 1000

/-! ## Resampler, part_000 lines 118-132

JS numbers are modelled as exact rationals; the arithmetic in
`resampleInt16` is the same formula the spec's reference definition gives. -/

/-- JS `s | 0` on an in-range value: truncation toward zero. -/
def truncJs (q : ℚ) : ℤ := if 0 ≤ q then ⌊q⌋ else -⌊-q⌋

/-- `resampleInt16(int16Src, srcRate, dstRate)`: identity when the rates
agree, otherwise linear interpolation at source position `i * ratio` with
truncation of the interpolated value. -/
def resampleInt16 (int16Src : List ℤ) (srcRate dstRate : Nat) : List ℤ :=
  if srcRate = dstRate then int16Src
  else
    let ratio : ℚ := (srcRate : ℚ) / (dstRate : ℚ)
    let dstLen : Nat := (⌊(int16Src.length : ℚ) / ratio⌋).toNat
    (List.range dstLen).map fun (i : Nat) =>
      let idx : ℚ := (i : ℚ) * ratio
      let i0 : Nat := (⌊idx⌋).toNat
      let i1 : Nat := min (i0 + 1) (int16Src.length - 1)
      let frac : ℚ := idx - (i0 : ℚ)
      let s : ℚ := (int16Src.getD i0 0 : ℚ) * (1 - frac) + (int16Src.getD i1 0 : ℚ) * frac
      truncJs s

/-- The spec's reference resampler (§4.1), written from the spec's words:
identity fast path when the rates agree; otherwise, with
`ratio = srcRate/dstRate`, output length `⌊len/ratio⌋`, and element `i` the
linear interpolation between `samples[⌊i*ratio⌋]` and
`samples[min(⌊i*ratio⌋+1, len-1)]` with fractional weight
`i*ratio - ⌊i*ratio⌋`, truncated (not rounded) to an integer. -/
def resampleSpecRef (samples : List ℤ) (srcRate dstRate : Nat) : List ℤ :=
  if srcRate = dstRate then samples
  else
    let ratio : ℚ := (srcRate : ℚ) / (dstRate : ℚ)
    (List.range ⌊(samples.length : ℚ) / ratio⌋₊).map fun (i : Nat) =>
      let idx : ℚ := (i : ℚ) * ratio
      let w : ℚ := idx - (⌊idx⌋ : ℚ)
      truncJs ((samples.getD ⌊idx⌋₊ 0 : ℚ) * (1 - w) +
        (samples.getD (min (⌊idx⌋₊ + 1) (samples.length - 1)) 0 : ℚ) * w)

/-! ## Ingestion byte handling, part_000 lines 144-151 -/

/-- `if (chunk.length % 2 === 1) chunk = chunk.subarray(0, chunk.length - 1)`:
drop the trailing byte of an odd-length chunk. -/
def pushTruncateOdd (chunk : List Nat) : List Nat :=
  if chunk.length % 2 = 1 then chunk.take (chunk.length - 1) else chunk

/-- Reinterpret a 16-bit unsigned value as a signed int16. -/
def toSigned16 (v : Nat) : ℤ := if v < 32768 then (v : ℤ) else (v : ℤ) - 65536

/-- `new Int16Array(chunk.buffer, …, chunk.byteLength / 2)`: view consecutive
little-endian byte pairs as signed 16-bit samples. -/
def bytesToSamples : List Nat → List ℤ
  | lo :: hi :: rest => toSigned16 (lo % 256 + 256 * (hi % 256)) :: bytesToSamples rest
  | _ => []

/-- Serialise signed 16-bit samples back to little-endian bytes, as
`Buffer.from(resampled.buffer, …)` exposes the `Int16Array` storage. -/
def samplesToBytes (samples : List ℤ) : List Nat :=
  samples.flatMap fun s =>
    let v := (s % 65536).toNat
    [v % 256, v / 256]

/-- The `push({chunk, sampleRate})` body (part_000 lines 144-150): truncate an
odd trailing byte, view as int16, resample to `DST_RATE`, and append the bytes
to the buffer. -/
def pushChunk (chunk : List Nat) (sampleRate : Nat) (buffer : List Nat) : List Nat :=
  buffer ++ samplesToBytes (resampleInt16 (bytesToSamples (pushTruncateOdd chunk)) sampleRate DST_RATE)

/-! ## Frame extraction (the iterator's inner drain loop), part_000 lines 154-163 -/

/-- The inner `while (buffer.length >= FRAME_BYTES)` loop of `iterator()`:
repeatedly split off a `FRAME_BYTES`-byte frame, returning the yielded frames
in order together with the remaining (< `FRAME_BYTES`) buffer. -/
def drainFrames (buf : List Nat) : List (List Nat) × List Nat :=
  if _h : FRAME_BYTES ≤ buf.length then
    let q := drainFrames (buf.drop FRAME_BYTES)
    (buf.take FRAME_BYTES :: q.1, q.2)
  else ([], buf)
termination_by buf.length
decreasing_by
  rw [List.length_drop]
  have hfb : FRAME_BYTES = 640 := rfl
  omega

/-! ## Generator suspension/wakeup transition system, part_000 lines 135-165

The closure state of `makeAudioStreamGenerator` is `buffer`, `alive` and the
single `notify` slot; the consumer is the lone `iterator()` task. A state
records the buffered byte count, the liveness flag, whether the consumer is
suspended on `wait()` (i.e. `notify !== null` — a single slot, so at most one
pending waiter by construction), and how many frames have been yielded. Event
`push n` is a `push` call appending `n` resampled bytes and then running
`if (notify) { const n = notify; notify = null; n(); }`; `consume` is the
iterator task taking one loop step when runnable; `stop` sets `alive = false`
and fires `notify` if present. -/

structure GenState where
  buffer : Nat
  alive : Bool
  waiting : Bool
  yielded : Nat
  deriving Repr, DecidableEq

/-- Events of the generator transition system. -/
inductive GenEvent where
  | push (n : Nat)
  | consume
  | stop
  deriving Repr, DecidableEq

/-- One step of the generator system. `push` appends and wakes the (at most
one) pending waiter; a suspended consumer cannot take a `consume` step; a
runnable consumer yields a frame when `FRAME_BYTES` are buffered, otherwise
suspends on `wait()`; `stop` kills the loop and fires any pending notify. -/
def genStep (s : GenState) : GenEvent → GenState
  | .push n => { s with buffer := s.buffer + n, waiting := false }
  | .consume =>
    if s.waiting then s
    else if s.alive then
      if FRAME_BYTES ≤ s.buffer then
        { s with buffer := s.buffer - FRAME_BYTES, yielded := s.yielded + 1 }
      else
        { s with waiting := true }
    else s
  | .stop => { s with alive := false, waiting := false }

/-- The generator's state right after `makeAudioStreamGenerator()` returns. -/
def genInit : GenState := ⟨0, true, false, 0⟩

/-- States reachable from `genInit` by any event sequence. -/
inductive GenReachable : GenState → Prop where
  | init : GenReachable genInit
  | step : ∀ {s} (e : GenEvent), GenReachable s → GenReachable (genStep s e)

/-- Invariant of the generator system: a suspended consumer is only ever
observed while the loop is alive and the buffer is starved (it suspends only
under `alive && buffer.length < FRAME_BYTES`, and both `push` and `stop` fire
the pending notify). -/
def genInv (s : GenState) : Prop :=
  s.waiting = true → s.alive = true ∧ s.buffer < FRAME_BYTES

/-! ## Transcript dispatch loop, part_000 lines 207-234 -/

/-- One element of `Transcript.Results`: the `Transcript` field of each entry
of `Alternatives` (possibly absent, hence `Option`), and `IsPartial`. -/
structure TranscriptResult where
  alternatives : List (Option String)
  isPartial : Bool
  deriving Repr, DecidableEq

/-- A message sent to the client over the WebSocket. -/
inductive OutMsg where
  | transcript (text : String) (isPartial : Bool)
  | bedrockReply (reply : String)
  deriving Repr, DecidableEq

/-- Observable effects of dispatching: messages sent to the client in order,
`askBedrockAgent` invocations as `(inputText, sessionId)` pairs in order, and
errors logged by the `catch` around the agent call. -/
structure DispatchOut where
  msgs : List OutMsg
  agentCalls : List (String × String)
  errorsLogged : List String
  deriving Repr, DecidableEq

/-- Concatenation of dispatch effects in sequence. -/
def DispatchOut.append (a b : DispatchOut) : DispatchOut :=
  ⟨a.msgs ++ b.msgs, a.agentCalls ++ b.agentCalls, a.errorsLogged ++ b.errorsLogged⟩

/-- JS `String.prototype.trim()`, modelled on the character list: strip
leading and trailing whitespace. -/
def jsTrim (s : String) : String :=
  ⟨((s.data.dropWhile Char.isWhitespace).reverse.dropWhile Char.isWhitespace).reverse⟩

/-- Handling of a single `result` (part_000 lines 213-227): skip when
`Alternatives` is empty; otherwise trim the first alternative's text, forward
`{transcript, isPartial}`, and when the result is final with non-empty trimmed
text, call the agent and either send `{bedrockReply}` or log the error. The
agent is an oracle mapping `(inputText, sessionId)` to a reply or a failure. -/
def dispatchResult (sessionId : String) (agent : String → String → Except String String)
    (r : TranscriptResult) : DispatchOut :=
  match r.alternatives with
  | [] => ⟨[], [], []⟩
  | alt0 :: _ =>
    let transcript := jsTrim (alt0.getD "")
    let fwd := OutMsg.transcript transcript r.isPartial
    if r.isPartial = false ∧ transcript ≠ "" then
      match agent transcript sessionId with
      | .ok reply => ⟨[fwd, .bedrockReply reply], [(transcript, sessionId)], []⟩
      | .error e => ⟨[fwd], [(transcript, sessionId)], [e]⟩
    else ⟨[fwd], [], []⟩

/-- The sequential `for (const result of results)` consumer loop over the
whole stream of results of one session. -/
def dispatchLoop (sessionId : String) (agent : String → String → Except String String) :
    List TranscriptResult → DispatchOut
  | [] => ⟨[], [], []⟩
  | r :: rs => (dispatchResult sessionId agent r).append (dispatchLoop sessionId agent rs)

/-- The text of the agent call a single result triggers, if any: the trimmed
first alternative of a final result when non-empty. -/
def qualifyingFinal (r : TranscriptResult) : Option String :=
  match r.alternatives with
  | [] => none
  | alt0 :: _ =>
    let t := jsTrim (alt0.getD "")
    if r.isPartial = false ∧ t ≠ "" then some t else none

/-! ## WebSocket session identifier assignment, part_000 lines 168-176 -/

/-- The `wss.on("connection", async (ws) => …)` callback declares only `ws`,
so the identifier `req` used in the `try` block is unbound; this flag records
whether the callback binds the request object. In the source it does not. -/
def handlerBindsReq : Bool := false

/-- `ws.sessionId` assignment (part_000 lines 170-175). When the handler bound
the request, `url.searchParams.get("sessionId") || randomUUID()` would use a
non-empty client-supplied value; as written, `new URL(req.url, …)` throws a
ReferenceError and the `catch` branch assigns `randomUUID()` regardless. -/
def assignSessionId (querySessionId : Option String) (freshUUID : String) : String :=
  if handlerBindsReq then
    match querySessionId with
    | some sid => if sid = "" then freshUUID else sid
    | none => freshUUID
  else
    freshUUID

/-! ## Helper lemmas: registry map operations -/

theorem lookup_mapDelete (k : String) (m : List (String × Nat)) :
    (mapDelete k m).lookup k = none := by
  induction m with
  | nil => rfl
  | cons p m ih =>
    rw [mapDelete, List.filter_cons] at *
    by_cases h : p.1 = k
    · have hb : (p.1 != k) = false := by simp [h]
      rw [hb]
      exact ih
    · have hb : (p.1 != k) = true := by simp [h]
      rw [hb]
      cases p with
      | mk a b =>
        simp only [if_true]
        rw [List.lookup_cons]
        have hk : (k == a) = false := beq_false_of_ne (fun e => h e.symm)
        simpa [hk] using ih

theorem lookup_mapSet (k : String) (v : Nat) (m : List (String × Nat)) :
    (mapSet k v m).lookup k = some v := by
  simp [mapSet, List.lookup]

theorem countP_mapSet (k : String) (v : Nat) (m : List (String × Nat)) :
    (mapSet k v m).countP (fun p => p.1 == k) = 1 := by
  have hz : (m.filter (fun p => p.1 != k)).countP (fun p => p.1 == k) = 0 := by
    refine List.countP_eq_zero.mpr ?_
    intro p hp
    have := List.of_mem_filter hp
    simpa using this
  simp [mapSet, List.countP_cons, hz]

theorem beginN_succ (n : Nat) (k : String) (s : TtsState) :
    beginN (n + 1) k s =
      ((beginTtsSession k s).1 :: (beginN n k (beginTtsSession k s).2).1,
        (beginN n k (beginTtsSession k s).2).2) := rfl

theorem beginN_length (n : Nat) (k : String) (s : TtsState) :
    (beginN n k s).1.length = n := by
  induction n generalizing s with
  | zero => rfl
  | succ n ih => simp [beginN, ih]

theorem beginN_aborted_mono (n : Nat) (k : String) (s : TtsState) (a : Nat)
    (ha : a ∈ s.aborted) : a ∈ (beginN n k s).2.aborted := by
  induction n generalizing s with
  | zero => simpa [beginN] using ha
  | succ n ih =>
    simp only [beginN]
    apply ih
    simp only [beginTtsSession]
    cases h : s.registry.lookup k <;> simp [h, ha]

theorem beginN_aborts_current (n : Nat) (k : String) (s : TtsState) (c : Nat)
    (hc : s.registry.lookup k = some c) (hn : 0 < n) :
    c ∈ (beginN n k s).2.aborted := by
  cases n with
  | zero => exact absurd hn (by simp)
  | succ n =>
    simp only [beginN]
    apply beginN_aborted_mono
    simp [beginTtsSession, hc]

/-- C1: after any positive number of sequential `beginTtsSession(k)` calls,
the registry holds exactly one entry for `k`, that entry is the controller
returned by the last call, and every controller returned by an earlier call
has been aborted. (Each call aborts the installed controller before
installing its fresh one, as `beginTtsSession` exhibits.) -/
theorem beginTtsSession_barge_in_exclusive (n : Nat) (k : String) (s : TtsState)
    (hn : 0 < n) :
    ((beginN n k s).2.registry.countP (fun p => p.1 == k) = 1) ∧
    ((beginN n k s).2.registry.lookup k = (beginN n k s).1.getLast?) ∧
    (∀ c ∈ (beginN n k s).1.dropLast, c ∈ (beginN n k s).2.aborted) := by
  induction n generalizing s with
  | zero => exact absurd hn (by simp)
  | succ n ih =>
    cases n with
    | zero =>
      refine ⟨?_, ?_, ?_⟩
      · simpa [beginN, beginTtsSession] using countP_mapSet k s.nextId s.registry
      · simpa [beginN, beginTtsSession] using lookup_mapSet k s.nextId s.registry
      · intro c hc
        simp [beginN] at hc
    | succ m =>
      have hm : 0 < m + 1 := Nat.succ_pos m
      obtain ⟨ih1, ih2, ih3⟩ := ih (beginTtsSession k s).2 hm
      have hne : (beginN (m + 1) k (beginTtsSession k s).2).1 ≠ [] := by
        have hl := beginN_length (m + 1) k (beginTtsSession k s).2
        intro hnil
        rw [hnil] at hl
        simp at hl
      rw [beginN_succ (m + 1) k s]
      dsimp only
      refine ⟨ih1, ?_, ?_⟩
      · cases h : (beginN (m + 1) k (beginTtsSession k s).2).1 with
        | nil => exact absurd h hne
        | cons x xs =>
          rw [List.getLast?_cons_cons, ← h]
          exact ih2
      · intro c hc
        cases h : (beginN (m + 1) k (beginTtsSession k s).2).1 with
        | nil => exact absurd h hne
        | cons x xs =>
          rw [h] at hc
          have hc' : c ∈ (beginTtsSession k s).1 :: (x :: xs).dropLast := hc
          rcases List.mem_cons.mp hc' with hc | hc
          · subst hc
            refine beginN_aborts_current (m + 1) k (beginTtsSession k s).2 _ ?_ hm
            simpa [beginTtsSession] using lookup_mapSet k s.nextId s.registry
          · exact ih3 c (by rw [h]; exact hc)

/-- C1 witness: two `begin("c1")` calls from the empty registry leave exactly
one entry for `"c1"`, holding the second controller, with the first aborted. -/
theorem beginTtsSession_barge_in_exclusive_witness :
    0 < 2 ∧
    ((beginN 2 "c1" initTtsState).2.registry.countP (fun p => p.1 == "c1") = 1) ∧
    ((beginN 2 "c1" initTtsState).2.registry.lookup "c1" =
      (beginN 2 "c1" initTtsState).1.getLast?) ∧
    0 ∈ (beginN 2 "c1" initTtsState).2.aborted :=
  ⟨by decide,
    (beginTtsSession_barge_in_exclusive 2 "c1" initTtsState (by decide)).1,
    (beginTtsSession_barge_in_exclusive 2 "c1" initTtsState (by decide)).2.1,
    (beginTtsSession_barge_in_exclusive 2 "c1" initTtsState (by decide)).2.2 0 (by decide)⟩

/-- C2: `endTtsSession(k, c)` removes the entry for `k` exactly when the
installed controller is `c`; when it differs (or no entry exists) the whole
state is unchanged; and a second identical call is a no-op, so calling it
twice with the same (possibly stale) controller equals calling it once. -/
theorem endTtsSession_match_idempotent (k : String) (c : Nat) (s : TtsState) :
    (s.registry.lookup k = some c →
      endTtsSession k c s = { s with registry := mapDelete k s.registry }) ∧
    (s.registry.lookup k ≠ some c → endTtsSession k c s = s) ∧
    endTtsSession k c (endTtsSession k c s) = endTtsSession k c s := by
  refine ⟨?_, ?_, ?_⟩
  · intro h
    simp [endTtsSession, h]
  · intro h
    simp [endTtsSession, h]
  · by_cases h : s.registry.lookup k = some c
    · have h1 : endTtsSession k c s = { s with registry := mapDelete k s.registry } := by
        simp [endTtsSession, h]
      rw [h1]
      have h2 : (mapDelete k s.registry).lookup k = none := lookup_mapDelete k s.registry
      simp [endTtsSession, h2]
    · have h1 : endTtsSession k c s = s := by simp [endTtsSession, h]
      rw [h1, h1]

/-- C2 witness: with `"c1"` mapped to controller `0`, `end("c1", 0)` removes
the entry (the matching case's hypothesis discharged concretely). -/
theorem endTtsSession_match_idempotent_witness :
    (TtsState.mk [("c1", 0)] [] 1).registry.lookup "c1" = some 0 ∧
    endTtsSession "c1" 0 ⟨[("c1", 0)], [], 1⟩ =
      { TtsState.mk [("c1", 0)] [] 1 with registry := mapDelete "c1" [("c1", 0)] } :=
  ⟨by decide, (endTtsSession_match_idempotent "c1" 0 ⟨[("c1", 0)], [], 1⟩).1 (by decide)⟩

/-! ## C5: resampler matches the reference definition -/

/-- C5: `resampleInt16` equals the spec's reference definition for positive
rates: identity fast path when `srcRate = dstRate`, otherwise output length
`⌊len/ratio⌋` with element `i` the linear interpolation between the samples at
`⌊i*ratio⌋` and `min(⌊i*ratio⌋+1, len-1)` weighted by `i*ratio - ⌊i*ratio⌋`,
truncated toward zero. (JS double arithmetic is modelled as exact rational
arithmetic in both definitions; they share the formula symbol for symbol.) -/
theorem resampleInt16_matches_reference (samples : List ℤ) (srcRate dstRate : Nat)
    (hs : 0 < srcRate) (hd : 0 < dstRate) :
    resampleInt16 samples srcRate dstRate = resampleSpecRef samples srcRate dstRate := by
  by_cases h : srcRate = dstRate
  · simp [resampleInt16, resampleSpecRef, h]
  · unfold resampleInt16 resampleSpecRef
    rw [if_neg h, if_neg h]
    dsimp only
    rw [Int.floor_toNat]
    apply List.map_congr_left
    intro i hi
    have hidx : (0 : ℚ) ≤ (i : ℚ) * ((srcRate : ℚ) / (dstRate : ℚ)) := by positivity
    have h1 : (⌊(i : ℚ) * ((srcRate : ℚ) / (dstRate : ℚ))⌋).toNat =
        ⌊(i : ℚ) * ((srcRate : ℚ) / (dstRate : ℚ))⌋₊ := Int.floor_toNat _
    have h2 : ((⌊(i : ℚ) * ((srcRate : ℚ) / (dstRate : ℚ))⌋₊ : ℕ) : ℚ) =
        ((⌊(i : ℚ) * ((srcRate : ℚ) / (dstRate : ℚ))⌋ : ℤ) : ℚ) :=
      natCast_floor_eq_intCast_floor hidx
    simp only [h1, h2]

/-- C5 witness: at equal rates (the fast path) the two definitions agree on a
concrete sample list, with both rate positivity hypotheses discharged. -/
theorem resampleInt16_matches_reference_witness :
    0 < 16000 ∧ 0 < 16000 ∧
    resampleInt16 [5, -3] 16000 16000 = resampleSpecRef [5, -3] 16000 16000 :=
  ⟨by decide, by decide,
    resampleInt16_matches_reference [5, -3] 16000 16000 (by decide) (by decide)⟩

/-! ## C10: odd trailing byte dropped before sample view and resampling -/

theorem bytesToSamples_length : (bs : List Nat) → (bytesToSamples bs).length = bs.length / 2
  | [] => rfl
  | [_] => by simp [bytesToSamples]
  | lo :: hi :: rest => by
    have ih := bytesToSamples_length rest
    simp only [bytesToSamples, List.length_cons, ih]
    omega

/-- C10: the `push` ingress path drops exactly the trailing byte of an
odd-length chunk and leaves even-length chunks intact, before the bytes are
viewed as 16-bit samples and resampled (`pushChunk` exhibits the order:
truncate, then `bytesToSamples`, then `resampleInt16`); a 7-byte chunk
becomes 6 bytes, i.e. 3 samples. -/
theorem pushTruncateOdd_drop_trailing (chunk : List Nat) (sampleRate : Nat)
    (buffer : List Nat) :
    (chunk.length % 2 = 1 →
      pushTruncateOdd chunk = chunk.take (chunk.length - 1) ∧
      (pushTruncateOdd chunk).length = chunk.length - 1) ∧
    (chunk.length % 2 = 0 → pushTruncateOdd chunk = chunk) ∧
    (chunk.length = 7 →
      (pushTruncateOdd chunk).length = 6 ∧
      (bytesToSamples (pushTruncateOdd chunk)).length = 3) ∧
    pushChunk chunk sampleRate buffer =
      buffer ++ samplesToBytes
        (resampleInt16 (bytesToSamples (pushTruncateOdd chunk)) sampleRate DST_RATE) := by
  refine ⟨?_, ?_, ?_, rfl⟩
  · intro hodd
    refine ⟨by rw [pushTruncateOdd, if_pos hodd], ?_⟩
    rw [pushTruncateOdd, if_pos hodd, List.length_take]
    omega
  · intro heven
    rw [pushTruncateOdd, if_neg (by omega)]
  · intro h7
    have hlen : (pushTruncateOdd chunk).length = 6 := by
      rw [pushTruncateOdd, if_pos (by omega), List.length_take]
      omega
    exact ⟨hlen, by rw [bytesToSamples_length, hlen]⟩

/-- C10 witness: a concrete 7-byte chunk is truncated to its first 6 bytes,
which view as 3 samples. -/
theorem pushTruncateOdd_drop_trailing_witness :
    ([1, 2, 3, 4, 5, 6, 7] : List Nat).length = 7 ∧
    ((pushTruncateOdd [1, 2, 3, 4, 5, 6, 7]).length = 6 ∧
      (bytesToSamples (pushTruncateOdd [1, 2, 3, 4, 5, 6, 7])).length = 3) :=
  ⟨by decide, (pushTruncateOdd_drop_trailing [1, 2, 3, 4, 5, 6, 7] 44100 []).2.2.1 (by decide)⟩

/-! ## C4: frame-buffer exactness -/

theorem drainFrames_multiple (n : Nat) (bytes : List Nat)
    (hlen : bytes.length = n * FRAME_BYTES) :
    (drainFrames bytes).1.length = n ∧
    (∀ f ∈ (drainFrames bytes).1, f.length = FRAME_BYTES) ∧
    (drainFrames bytes).1.flatten = bytes ∧
    (drainFrames bytes).2 = [] := by
  induction n generalizing bytes with
  | zero =>
    have hnil : bytes = [] := List.length_eq_zero.mp (by simpa using hlen)
    subst hnil
    rw [drainFrames, dif_neg (by decide)]
    simp
  | succ n ih =>
    have hfb : FRAME_BYTES = 640 := rfl
    have hge : FRAME_BYTES ≤ bytes.length := by rw [hlen, hfb]; omega
    have hdrop : (bytes.drop FRAME_BYTES).length = n * FRAME_BYTES := by
      rw [List.length_drop, hlen, hfb]
      omega
    obtain ⟨ih1, ih2, ih3, ih4⟩ := ih (bytes.drop FRAME_BYTES) hdrop
    rw [drainFrames, dif_pos hge]
    dsimp only
    refine ⟨by simpa using ih1, ?_, ?_, ih4⟩
    · intro f hf
      rcases List.mem_cons.mp hf with hf | hf
      · subst hf
        rw [List.length_take]
        omega
      · exact ih2 f hf
    · rw [List.flatten_cons, ih3, List.take_append_drop]

/-- C4: when the chunks pushed into the frame buffer total `n * FRAME_BYTES`
bytes, the iterator's drain loop yields exactly `n` frames, each exactly
`FRAME_BYTES` (640) bytes, whose concatenation in yield order is the pushed
bytes in push order, and the remainder is empty; every yielded frame has full
length, so a sub-frame remainder left at `stop()` is never emitted. -/
theorem frameBuffer_exact_frames (chunks : List (List Nat)) (n : Nat)
    (hlen : chunks.flatten.length = n * FRAME_BYTES) :
    (drainFrames chunks.flatten).1.length = n ∧
    (∀ f ∈ (drainFrames chunks.flatten).1, f.length = FRAME_BYTES) ∧
    (drainFrames chunks.flatten).1.flatten = chunks.flatten ∧
    (drainFrames chunks.flatten).2 = [] :=
  drainFrames_multiple n chunks.flatten hlen

/-- C4 witness: two pushed chunks of 639 and 641 zero bytes (1280 = 2 × 640
bytes in total) yield exactly two full frames and no remainder. -/
theorem frameBuffer_exact_frames_witness :
    ([List.replicate 639 0, List.replicate 641 0] : List (List Nat)).flatten.length =
      2 * FRAME_BYTES ∧
    ((drainFrames ([List.replicate 639 0, List.replicate 641 0] : List (List Nat)).flatten).1.length = 2 ∧
      (drainFrames ([List.replicate 639 0, List.replicate 641 0] : List (List Nat)).flatten).1.flatten =
        ([List.replicate 639 0, List.replicate 641 0] : List (List Nat)).flatten ∧
      (drainFrames ([List.replicate 639 0, List.replicate 641 0] : List (List Nat)).flatten).2 = []) :=
  ⟨by
    simp only [List.flatten_cons, List.flatten_nil, List.length_append,
      List.length_replicate, List.length_nil]
    decide,
    (frameBuffer_exact_frames [List.replicate 639 0, List.replicate 641 0] 2
      (by
        simp only [List.flatten_cons, List.flatten_nil, List.length_append,
          List.length_replicate, List.length_nil]
        decide)).1,
    (frameBuffer_exact_frames [List.replicate 639 0, List.replicate 641 0] 2
      (by
        simp only [List.flatten_cons, List.flatten_nil, List.length_append,
          List.length_replicate, List.length_nil]
        decide)).2.2.1,
    (frameBuffer_exact_frames [List.replicate 639 0, List.replicate 641 0] 2
      (by
        simp only [List.flatten_cons, List.flatten_nil, List.length_append,
          List.length_replicate, List.length_nil]
        decide)).2.2.2⟩

/-! ## C3: no lost wakeup in the generator -/

theorem genInv_step (s : GenState) (e : GenEvent) (hs : genInv s) : genInv (genStep s e) := by
  cases e with
  | push n => intro hw; simp [genStep] at hw
  | stop => intro hw; simp [genStep] at hw
  | consume =>
    by_cases h1 : s.waiting = true
    · intro hw
      simp only [genStep, if_pos h1] at hw ⊢
      exact hs hw
    · by_cases h2 : s.alive = true
      · by_cases h3 : FRAME_BYTES ≤ s.buffer
        · intro hw
          simp [genStep, h1, h2, h3] at hw
        · intro hw
          simp only [genStep, if_neg h1, if_pos h2, if_neg h3]
          exact ⟨h2, by omega⟩
      · intro hw
        simp [genStep, h1, h2] at hw

theorem genInv_of_reachable {s : GenState} (h : GenReachable s) : genInv s := by
  induction h with
  | init => intro hw; simp [genInit] at hw
  | step e h ih => exact genInv_step _ e ih

/-- C3: in any reachable generator state, (a) a `push` leaves no pending
waiter behind — the single `notify` slot is fired and cleared, so a push wakes
at most the one pending waiter; (b) a `push` arriving when no consumer is
waiting only appends bytes (the wakeup is "lost" exactly when nobody waits);
(c) if the consumer is suspended and the push brings the buffered byte count
to at least `FRAME_BYTES`, the consumer is woken and its very next step
yields a frame — no lost wakeup. -/
theorem genStep_no_lost_wakeup (s : GenState) (hr : GenReachable s) (n : Nat) :
    ((genStep s (GenEvent.push n)).waiting = false) ∧
    (s.waiting = false → genStep s (GenEvent.push n) = { s with buffer := s.buffer + n }) ∧
    (s.waiting = true → FRAME_BYTES ≤ s.buffer + n →
      (genStep s (GenEvent.push n)).waiting = false ∧
      (genStep (genStep s (GenEvent.push n)) GenEvent.consume).yielded = s.yielded + 1) := by
  refine ⟨rfl, ?_, ?_⟩
  · intro hw
    simp [genStep, hw]
  · intro hw hbuf
    obtain ⟨halive, _⟩ := genInv_of_reachable hr hw
    refine ⟨rfl, ?_⟩
    simp [genStep, halive, hbuf]

/-- C3 witness: from the reachable state where the consumer suspended on an
empty buffer, a push of 640 bytes wakes it and its next step yields a frame. -/
theorem genStep_no_lost_wakeup_witness :
    GenReachable ⟨0, true, true, 0⟩ ∧
    ((genStep ⟨0, true, true, 0⟩ (GenEvent.push 640)).waiting = false ∧
      (genStep (genStep ⟨0, true, true, 0⟩ (GenEvent.push 640)) GenEvent.consume).yielded =
        (0 : Nat) + 1) := by
  have hr : GenReachable ⟨0, true, true, 0⟩ := by
    have h := GenReachable.step GenEvent.consume GenReachable.init
    simpa [genStep, genInit] using h
  exact ⟨hr, (genStep_no_lost_wakeup ⟨0, true, true, 0⟩ hr 640).2.2 rfl (by decide)⟩

/-! ## C6-C8: transcript dispatch -/

theorem dispatchResult_agentCalls (sid : String)
    (agent : String → String → Except String String) (r : TranscriptResult) :
    (dispatchResult sid agent r).agentCalls =
      match qualifyingFinal r with
      | some t => [(t, sid)]
      | none => [] := by
  rcases r with ⟨alts, p⟩
  cases alts with
  | nil => rfl
  | cons alt0 rest =>
    simp only [dispatchResult, qualifyingFinal]
    by_cases hc : p = false ∧ jsTrim (alt0.getD "") ≠ ""
    · rw [if_pos hc, if_pos hc]
      cases agent (jsTrim (alt0.getD "")) sid <;> rfl
    · rw [if_neg hc, if_neg hc]

/-- C6: over a session's whole result stream, the agent is invoked exactly
once per final result with non-empty trimmed text, with arguments (trimmed
text, session identifier), in stream order; a partial result never triggers a
call; a final with empty trimmed text never triggers a call; and when the
agent answers, the reply is sent as a distinct message immediately after that
final's forwarded transcript. -/
theorem dispatchLoop_agent_exactly_once (sid : String)
    (agent : String → String → Except String String) (rs : List TranscriptResult) :
    ((dispatchLoop sid agent rs).agentCalls =
      rs.filterMap (fun r => (qualifyingFinal r).map (fun t => (t, sid)))) ∧
    (∀ r : TranscriptResult, r.isPartial = true →
      (dispatchResult sid agent r).agentCalls = []) ∧
    (∀ r : TranscriptResult, ∀ alt0 : Option String, ∀ tl : List (Option String),
      r.alternatives = alt0 :: tl → jsTrim (alt0.getD "") = "" →
      (dispatchResult sid agent r).agentCalls = []) ∧
    (∀ r : TranscriptResult, ∀ t reply : String, qualifyingFinal r = some t →
      agent t sid = Except.ok reply →
      (dispatchResult sid agent r).msgs =
        [OutMsg.transcript t false, OutMsg.bedrockReply reply] ∧
      (dispatchResult sid agent r).agentCalls = [(t, sid)]) := by
  refine ⟨?_, ?_, ?_, ?_⟩
  · induction rs with
    | nil => rfl
    | cons r rs ih =>
      simp only [dispatchLoop, DispatchOut.append, List.filterMap_cons]
      rw [ih, dispatchResult_agentCalls]
      cases qualifyingFinal r <;> simp
  · intro r hp
    rcases r with ⟨alts, p⟩
    cases alts with
    | nil => rfl
    | cons alt0 tl =>
      simp only at hp
      subst hp
      simp [dispatchResult]
  · intro r alt0 tl halt ht
    rcases r with ⟨alts, p⟩
    simp only at halt
    subst halt
    simp [dispatchResult, ht]
  · intro r t reply hq hA
    rcases r with ⟨alts, p⟩
    cases alts with
    | nil => simp [qualifyingFinal] at hq
    | cons alt0 tl =>
      simp only [qualifyingFinal] at hq
      by_cases hc : p = false ∧ jsTrim (alt0.getD "") ≠ ""
      · rw [if_pos hc] at hq
        have ht : jsTrim (alt0.getD "") = t := by
          injection hq
        obtain ⟨hp, hne⟩ := hc
        subst hp
        subst ht
        constructor
        · simp [dispatchResult, hne, hA]
        · simp [dispatchResult, hne, hA]
      · rw [if_neg hc] at hq
        exact absurd hq (by simp)

/-- C6 witness: the spec's scenario 2 — a final `"hola"` in session `"s1"`
triggers exactly one agent call `("hola", "s1")`, and the agent's reply is
sent as a distinct message after the forwarded final. -/
theorem dispatchLoop_agent_exactly_once_witness :
    qualifyingFinal ⟨[some "hola"], false⟩ = some "hola" ∧
    (fun (t _ : String) => (Except.ok ("re:" ++ t) : Except String String)) "hola" "s1" =
      Except.ok "re:hola" ∧
    ((dispatchResult "s1" (fun t _ => Except.ok ("re:" ++ t)) ⟨[some "hola"], false⟩).msgs =
      [OutMsg.transcript "hola" false, OutMsg.bedrockReply "re:hola"] ∧
    (dispatchResult "s1" (fun t _ => Except.ok ("re:" ++ t)) ⟨[some "hola"], false⟩).agentCalls =
      [("hola", "s1")]) :=
  ⟨by decide, rfl,
    (dispatchLoop_agent_exactly_once "s1" (fun t _ => Except.ok ("re:" ++ t)) []).2.2.2
      ⟨[some "hola"], false⟩ "hola" "re:hola" (by decide) rfl⟩

/-- C7 counterexample: the partial result whose emitted text is `" hola "` is
forwarded as exactly one message, and that message's text is the trimmed
`"hola"`, which differs character for character from `" hola "` — the claim
that the forwarded text equals the emitted text verbatim is false. -/
theorem dispatch_forward_verbatim_counterexample :
    (dispatchResult "s1" (fun _ _ => Except.error "unused") ⟨[some " hola "], true⟩).msgs =
      [OutMsg.transcript "hola" true] ∧
    ("hola" : String) ≠ " hola " := by
  constructor
  · decide
  · decide

/-- C7 amended: for every result with a non-empty alternatives list, the
dispatcher forwards to the client a message whose text is the TRIMMED first
alternative (`(alt0 || "").trim()`), together with the result's partial flag,
as the first message emitted for that result. -/
theorem dispatch_forwards_trimmed_text (sid : String)
    (agent : String → String → Except String String) (r : TranscriptResult)
    (alt0 : Option String) (tl : List (Option String))
    (halt : r.alternatives = alt0 :: tl) :
    (dispatchResult sid agent r).msgs.head? =
      some (OutMsg.transcript (jsTrim (alt0.getD "")) r.isPartial) := by
  rcases r with ⟨alts, p⟩
  simp only at halt
  subst halt
  simp only [dispatchResult]
  by_cases hc : p = false ∧ jsTrim (alt0.getD "") ≠ ""
  · rw [if_pos hc]
    obtain ⟨hp, _⟩ := hc
    subst hp
    cases agent (jsTrim (alt0.getD "")) sid <;> rfl
  · rw [if_neg hc]
    rfl

/-- C7 amended witness: the `" hola "` partial is forwarded with the trimmed
text `"hola"` and partial flag `true` as its first (and only) message. -/
theorem dispatch_forwards_trimmed_text_witness :
    (⟨[some " hola "], true⟩ : TranscriptResult).alternatives = some " hola " :: [] ∧
    (dispatchResult "s1" (fun _ _ => Except.error "unused")
        ⟨[some " hola "], true⟩).msgs.head? =
      some (OutMsg.transcript (jsTrim ((some " hola ").getD ""))
        (⟨[some " hola "], true⟩ : TranscriptResult).isPartial) :=
  ⟨rfl, dispatch_forwards_trimmed_text "s1" (fun _ _ => Except.error "unused")
    ⟨[some " hola "], true⟩ (some " hola ") [] rfl⟩

/-- C8: when the agent call for a final result with non-empty trimmed text
fails, the error is logged, the forwarded transcript is the only message for
that utterance (no reply is sent), and the loop's effects on the remaining
results are unchanged — dispatching `r :: rest` is always the effects of `r`
followed by those of `rest`, so the connection is not closed and forwarding
continues. -/
theorem dispatch_agent_failure_recovery (sid : String)
    (agent : String → String → Except String String) (r : TranscriptResult)
    (rest : List TranscriptResult) (t e : String)
    (hq : qualifyingFinal r = some t) (he : agent t sid = Except.error e) :
    (dispatchResult sid agent r).msgs = [OutMsg.transcript t false] ∧
    (dispatchResult sid agent r).errorsLogged = [e] ∧
    dispatchLoop sid agent (r :: rest) =
      (dispatchResult sid agent r).append (dispatchLoop sid agent rest) := by
  refine ⟨?_, ?_, rfl⟩ <;>
  · rcases r with ⟨alts, p⟩
    cases alts with
    | nil => simp [qualifyingFinal] at hq
    | cons alt0 tl =>
      simp only [qualifyingFinal] at hq
      by_cases hc : p = false ∧ jsTrim (alt0.getD "") ≠ ""
      · rw [if_pos hc] at hq
        have ht : jsTrim (alt0.getD "") = t := by injection hq
        obtain ⟨hp, hne⟩ := hc
        subst hp
        subst ht
        simp [dispatchResult, hne, he]
      · rw [if_neg hc] at hq
        exact absurd hq (by simp)

/-- C8 witness: a failing agent on the final `"hola"` logs the error `"boom"`,
sends only the forwarded transcript, and the loop equation holds for a
concrete remaining stream. -/
theorem dispatch_agent_failure_recovery_witness :
    qualifyingFinal ⟨[some "hola"], false⟩ = some "hola" ∧
    (fun (_ _ : String) => (Except.error "boom" : Except String String)) "hola" "s1" =
      Except.error "boom" ∧
    ((dispatchResult "s1" (fun _ _ => Except.error "boom") ⟨[some "hola"], false⟩).msgs =
      [OutMsg.transcript "hola" false] ∧
    (dispatchResult "s1" (fun _ _ => Except.error "boom")
        ⟨[some "hola"], false⟩).errorsLogged = ["boom"] ∧
    dispatchLoop "s1" (fun _ _ => Except.error "boom")
        (⟨[some "hola"], false⟩ :: [⟨[some "y"], true⟩]) =
      (dispatchResult "s1" (fun _ _ => Except.error "boom") ⟨[some "hola"], false⟩).append
        (dispatchLoop "s1" (fun _ _ => Except.error "boom") [⟨[some "y"], true⟩])) :=
  ⟨by decide, rfl,
    dispatch_agent_failure_recovery "s1" (fun _ _ => Except.error "boom")
      ⟨[some "hola"], false⟩ [⟨[some "y"], true⟩] "hola" "boom" (by decide) rfl⟩

/-! ## C9: session identifier assignment (code bug) -/

/-- C9 (code bug): because the connection callback is `async (ws) => …`, the
`req` identifier in the `try` block is unbound, `new URL(req.url, …)` throws,
and the `catch` branch runs on every connection: the assigned session
identifier is always the freshly generated UUID. In particular a client
connecting with `?sessionId=s1` still gets the fresh UUID, contradicting the
claim that the client-supplied value is used. -/
theorem assignSessionId_always_fresh (q : Option String) (u : String) :
    assignSessionId q u = u ∧
    assignSessionId (some "s1") "fresh-uuid" = "fresh-uuid" :=
  ⟨rfl, rfl⟩

end Novalite
